import Mathlib

/-!
Verification of the `turnslate` code generator (`src/lib.rs`).

The program downloads a bundle of Fluent (FTL) localization files, parses the
main locale with `fluent_syntax::parser`, extracts the variable names used by
each message, and renders a TypeScript module containing a typed schema
(`LocalizedMessage`) plus the raw FTL text of every locale.

The embedding below models:
  * the fragment of the `fluent_syntax` AST that the extractor consumes
    (`Resource`, `Entry`, `Message`, `Pattern`, `PatternElement`,
    `Expression`, `InlineExpression`, `Variant`); payload fields the
    extractor never reads (spans, call arguments, attributes, comments)
    are omitted;
  * `parse_nodes`, `visit_message`, `visit_pattern` (lib.rs:126-177) —
    a Rust `HashSet<String>` built by successive `insert` calls is modelled
    as a duplicate-free `List String` in insertion order; `insert` is
    `insertSet`;
  * `generate_types` (lib.rs:86-117) and the output assembly in `run`
    (lib.rs:14-68).  The network fetch (`fetch_bundle`) and the external
    FTL parser are not code of this repository; `run` is therefore modelled
    as a function of the decoded `Bundle` and of a parser function
    `parse : String → Option Resource` (`none` models `parser::parse`
    returning `Err`, which makes the program panic via `expect`).
    A `HashMap<String, String>` is modelled as an association list in the
    order the map iterates it.  `run` returning `none` models a panic
    before `fs::write`: no output file is produced.
-/

/-- `fluent_syntax::ast::Identifier` (only the `name` field is ever read). -/
structure Identifier where
  name : String
deriving Repr, DecidableEq

/-- `fluent_syntax::ast::VariantKey`. -/
inductive VariantKey where
  | identifier (name : String)
  | numberLiteral (value : String)
deriving Repr, DecidableEq

mutual

/-- `fluent_syntax::ast::Pattern`. -/
inductive Pattern where
  | mk (elements : List PatternElement)

/-- `fluent_syntax::ast::PatternElement` (the `TextElement` and `Placeable`
cases matched at lib.rs:154-155; spans omitted). -/
inductive PatternElement where
  | textElement (value : String)
  | placeable (expression : Expression)

/-- `fluent_syntax::ast::Expression`: `Inline` or `Select`. -/
inductive Expression where
  | inline (e : InlineExpression)
  | select (selector : InlineExpression) (variants : List Variant)

/-- `fluent_syntax::ast::InlineExpression`.  Only `VariableReference` is ever
matched by the extractor (lib.rs:157, 163); the payloads of the other
constructors (call arguments, attribute accesses) are never read and are
reduced to the head identifier or literal text. -/
inductive InlineExpression where
  | stringLiteral (value : String)
  | numberLiteral (value : String)
  | functionReference (id : Identifier)
  | messageReference (id : Identifier)
  | termReference (id : Identifier)
  | variableReference (id : Identifier)
  | placeable (expression : Expression)

/-- `fluent_syntax::ast::Variant`. -/
inductive Variant where
  | mk (key : VariantKey) (value : Pattern) (isDefault : Bool)

end

/-- The `value` field of `ast::Variant`. -/
def Variant.value : Variant → Pattern
  | .mk _ v _ => v

/-- The `elements` field of `ast::Pattern`. -/
def Pattern.elements : Pattern → List PatternElement
  | .mk es => es

/-- `fluent_syntax::ast::Message` (the extractor reads `id.name` and
`value`; attributes and comments are never read and are omitted). -/
structure Message where
  id : Identifier
  value : Option Pattern

/-- `fluent_syntax::ast::Entry`.  Only the `Message` case is ever matched
(lib.rs:131); the payloads of the other entries are never read. -/
inductive Entry where
  | message (m : Message)
  | term (id : Identifier)
  | comment (content : String)
  | groupComment (content : String)
  | resourceComment (content : String)
  | junk (content : String)

/-- `fluent_syntax::ast::Resource`. -/
structure Resource where
  body : List Entry

/-- `struct Node` (lib.rs:119-124).  `ids : HashSet<String>` is modelled as a
duplicate-free list in insertion order. -/
structure Node where
  name : String
  comment : Option String
  ids : List String
deriving Repr, DecidableEq

/-- `result.insert(x)` on a `HashSet<String>` modelled as a duplicate-free
list: a no-op when present, append otherwise. -/
def insertSet (s : List String) (x : String) : List String :=
  if x ∈ s then s else s ++ [x]

mutual

/-- `visit_pattern` (lib.rs:150-177): fold over the pattern's elements,
starting from the empty set. -/
def visit_pattern : Pattern → List String
  | .mk elements => visit_elements [] elements

/-- The `for element in &pattern.elements` loop of `visit_pattern`
(lib.rs:153-174), with the accumulated `result` set made explicit. -/
def visit_elements (result : List String) : List PatternElement → List String
  | [] => result
  | .textElement _ :: rest => visit_elements result rest
  | .placeable expression :: rest =>
      visit_elements (visit_placeable result expression) rest

/-- The `match expression` body of the loop (lib.rs:155-171): an inline
`VariableReference` inserts its name; a `Select` whose selector is a
`VariableReference` inserts the selector's name and runs the variant loop;
every other expression leaves the set unchanged. -/
def visit_placeable (result : List String) : Expression → List String
  | .inline (.variableReference id) => insertSet result id.name
  | .inline _ => result
  | .select (.variableReference id) variants =>
      visit_variants (insertSet result id.name) variants
  | .select _ _ => result

/-- The `for variant in variants` loop (lib.rs:165-167).  The loop body is
`result.union(&visit_pattern(&variant.value));`: `HashSet::union` borrows
`result`, returns a lazy union iterator and never mutates the receiver, and
the returned iterator is immediately dropped — so each iteration computes
the recursive result and discards it, leaving `result` unchanged. -/
def visit_variants (result : List String) : List Variant → List String
  | [] => result
  | .mk _ value _ :: rest =>
      let _dropped := visit_pattern value
      visit_variants result rest

end

/-- `visit_message` (lib.rs:139-148). -/
def visit_message (message : Message) : Node :=
  { name := message.id.name
    comment := none
    ids :=
      match message.value with
      | some value => visit_pattern value
      | none => [] }

/-- The `for entry in &ast.body` loop of `parse_nodes` (lib.rs:129-134) with
the accumulated `result` vector made explicit: a `Message` entry pushes
`visit_message msg`, every other entry is skipped. -/
def parse_nodes_loop (result : List Node) : List Entry → List Node
  | [] => result
  | .message msg :: rest => parse_nodes_loop (result ++ [visit_message msg]) rest
  | .term _ :: rest => parse_nodes_loop result rest
  | .comment _ :: rest => parse_nodes_loop result rest
  | .groupComment _ :: rest => parse_nodes_loop result rest
  | .resourceComment _ :: rest => parse_nodes_loop result rest
  | .junk _ :: rest => parse_nodes_loop result rest

/-- `parse_nodes` (lib.rs:126-137). -/
def parse_nodes (ast : Resource) : List Node :=
  parse_nodes_loop [] ast.body

/-- The entry rendered for one `Node` by `generate_types` (lib.rs:91-104):
`format!("'{}': [{}],", node.name, …)` where the inner part is
`format!("Vars<'{}'>", ids.join("' | '"))` when the set is non-empty and the
empty string otherwise. -/
def genNodeEntry (node : Node) : String :=
  "'" ++ node.name ++ "': [" ++
    (if node.ids.length > 0 then
      "Vars<'" ++ String.intercalate ("' | '") node.ids ++ "'>"
    else
      ("")) ++ "],"

/-- The body of `generate_types` after the FTL text has been parsed
(lib.rs:89-116): render one entry per extracted node and splice the joined
entries into the raw template (braces written `\x7b`/`\x7d`). -/
def generate_types_body (resource : Resource) : String :=
  let ids := (parse_nodes resource).map genNodeEntry
  "\nexport type LocalizedMessage = \x7b\n  " ++ String.intercalate ("\n  ") ids ++
    "\n\x7d\n\ntype Vars<T extends string> = Record<T, string | number>\n        "

/-- `generate_types` (lib.rs:86-117).  `parser::parse(ftl)` belongs to the
external `fluent_syntax` crate and is passed in as `parse`; `parse ftl = none`
models `Err`, on which the Rust code panics (`expect("Failed to parse FTL")`),
modelled as `none`. -/
def generate_types (parse : String → Option Resource) (ftl : String) :
    Option String :=
  match parse ftl with
  | none => none
  | some resource => some (generate_types_body resource)

/-- `struct Bundle` (lib.rs:8-12).  The `HashMap<String, String>` of locales
is modelled as an association list in the map's iteration order. -/
structure Bundle where
  main : String
  langs : List (String × String)

/-- `bundle.langs.get(&bundle.main)` (lib.rs:20): `HashMap::get` on the
association-list model. -/
def lookupLang : List (String × String) → String → Option String
  | [], _ => none
  | (k, v) :: rest, key => if k = key then some v else lookupLang rest key

/-- One locale-table entry, `format!("'{}': `{}`", locale, ftl)`
(lib.rs:55). -/
def localeEntry (locale ftl : String) : String :=
  "'" ++ locale ++ "': `" ++ ftl ++ "`"

/-- The rendered locale entries, `bundle.langs.iter().map(…).collect()`
(lib.rs:52-56). -/
def localeEntries (langs : List (String × String)) : List String :=
  langs.map (fun p => localeEntry p.1 p.2)

/-- The `ftls` string (lib.rs:50-58):
`format!("export const langs = \x7b\n  \x7b\x7d\n\x7d as const", entries.join(",\n  "))`. -/
def ftlsSection (langs : List (String × String)) : String :=
  "export const langs = \x7b\n  " ++
    String.intercalate (",\n  ") (localeEntries langs) ++
    "\n\x7d as const"

/-- The fixed TypeScript runtime boilerplate, `code` (lib.rs:24-48), after
`.trim()`. -/
def codeTemplate : String :=
  "import \x7b FluentBundle, FluentResource \x7d from '@fluent/bundle'\n\n" ++
  "export interface Lang \x7b\n    <K extends keyof LocalizedMessage>(\n" ++
  "    id: K,\n    ...params: LocalizedMessage[K]\n    ): string\n\x7d\n\n" ++
  "export function createLang(locale: keyof typeof langs): Lang \x7b\n" ++
  "    const bundle = new FluentBundle(locale)\n" ++
  "    const resource = new FluentResource(langs[locale])\n" ++
  "    bundle.addResource(resource)\n" ++
  "    return (id, ...[params]) => \x7b\n" ++
  "    const message = bundle.getMessage(id)\n" ++
  "    if (!message || !message.value) \x7b\n        return id\n    \x7d\n" ++
  "    return bundle.formatPattern(message.value, params)\n    \x7d\n\x7d"

/-- `run` (lib.rs:14-68), as a function of the decoded bundle and the external
parser.  The Rust code panics (`expect("Main FTL does not exist!")`) when the
main locale is missing, and inside `generate_types` when the main locale fails
to parse; both happen before `fs::write(&out_file, …)`, so `none` means no
output file is ever written.  `some output` is the exact content written. -/
def run (parse : String → Option Resource) (bundle : Bundle) : Option String :=
  match lookupLang bundle.langs bundle.main with
  | none => none
  | some mainFtl =>
    match generate_types parse mainFtl with
    | none => none
    | some generated =>
      some (String.intercalate ("\n\n")
        [codeTemplate, generated, ftlsSection bundle.langs])

/-- The names contributed by ONE top-level pattern element, read off the
extractor's `match` arms (lib.rs:154-173): an inline `VariableReference`
contributes its name, a `Select` contributes its selector's name when the
selector is a `VariableReference`, and nothing else contributes (in
particular, variant values contribute nothing).  This is the spec-side
description used to characterize `visit_pattern`. -/
def elementTopVars : PatternElement → List String
  | .textElement _ => []
  | .placeable (.inline ie) =>
      match ie with
      | .variableReference id => [id.name]
      | _ => []
  | .placeable (.select sel _) =>
      match sel with
      | .variableReference id => [id.name]
      | _ => []

/-- Spec-side description of the whole set computed by `visit_pattern`: the
union, in element order, of the top-level contributions. -/
def specTopLevelVars (p : Pattern) : List String :=
  p.elements.flatMap elementTopVars

/-- The record produced for a single entry: `some (visit_message m)` for a
`Message`, `none` for every other entry kind (the `match entry` at
lib.rs:130-133). -/
def msgNode : Entry → Option Node
  | .message m => some (visit_message m)
  | _ => none

/-- Whether an entry is a `Message`. -/
def isMessageEntry : Entry → Bool
  | .message _ => true
  | _ => false

/-- Strips an expected leading character sequence, returning the remainder
(an inverse used to read the raw FTL text back out of a rendered locale
entry). -/
def stripLead : List Char → List Char → Option (List Char)
  | [], cs => some cs
  | _ :: _, [] => none
  | p :: ps, c :: cs => if p = c then stripLead ps cs else none

/-- Reads the raw FTL text back out of a rendered locale-table entry
`'locale': `…``: strips the `'locale': `` head and the closing backtick.
`decodeLocaleEntry locale (localeEntry locale ftl) = some ftl` states that
the raw text is embedded byte-for-byte. -/
def decodeLocaleEntry (locale entry : String) : Option String :=
  match stripLead (("'" ++ locale ++ "': `").data) entry.data with
  | none => none
  | some rest =>
    match rest.getLast? with
    | none => none
    | some c => if c = '`' then some (String.mk rest.dropLast) else none

mutual

/-- Select-nesting depth of a pattern (how many times the traversal can
recurse into a variant's value).  Bounds the fuel needed by the fuel-limited
traversal below. -/
def patternDepth : Pattern → Nat
  | .mk els => elementsDepth els

/-- Select-nesting depth of a list of pattern elements. -/
def elementsDepth : List PatternElement → Nat
  | [] => 0
  | e :: rest => max (elementDepth e) (elementsDepth rest)

/-- Select-nesting depth of a pattern element. -/
def elementDepth : PatternElement → Nat
  | .textElement _ => 0
  | .placeable e => exprDepth e

/-- Select-nesting depth of an expression. -/
def exprDepth : Expression → Nat
  | .inline _ => 0
  | .select _ vs => variantsDepth vs

/-- Select-nesting depth of a variant list. -/
def variantsDepth : List Variant → Nat
  | [] => 0
  | .mk _ value _ :: rest => max (1 + patternDepth value) (variantsDepth rest)

end

mutual

/-- Fuel-limited version of `visit_pattern`: one unit of fuel is consumed at
each recursion into a variant's value, and exhausted fuel yields `none`.
Used to state that the recursive traversal terminates on every tree: enough
fuel (the select-nesting depth of the input) always exists. -/
def visit_pattern_fuel : Nat → Pattern → Option (List String)
  | fuel, .mk elements => visit_elements_fuel fuel [] elements

/-- Fuel-limited version of `visit_elements`. -/
def visit_elements_fuel (fuel : Nat) (result : List String) :
    List PatternElement → Option (List String)
  | [] => some result
  | .textElement _ :: rest => visit_elements_fuel fuel result rest
  | .placeable expression :: rest =>
      match visit_placeable_fuel fuel result expression with
      | none => none
      | some r => visit_elements_fuel fuel r rest

/-- Fuel-limited version of `visit_placeable`. -/
def visit_placeable_fuel (fuel : Nat) (result : List String) :
    Expression → Option (List String)
  | .inline (.variableReference id) => some (insertSet result id.name)
  | .inline _ => some result
  | .select (.variableReference id) variants =>
      visit_variants_fuel fuel (insertSet result id.name) variants
  | .select _ _ => some result

/-- Fuel-limited version of `visit_variants`. -/
def visit_variants_fuel (fuel : Nat) (result : List String) :
    List Variant → Option (List String)
  | [] => some result
  | .mk _ value _ :: rest =>
      match fuel with
      | 0 => none
      | f + 1 =>
        match visit_pattern_fuel f value with
        | none => none
        | some _ => visit_variants_fuel fuel result rest

end

/-- Fuel-limited version of `visit_message`. -/
def visit_message_fuel (fuel : Nat) (message : Message) : Option Node :=
  match message.value with
  | some value =>
      match visit_pattern_fuel fuel value with
      | none => none
      | some ids => some { name := message.id.name, comment := none, ids := ids }
  | none => some { name := message.id.name, comment := none, ids := [] }

/-- Fuel-limited version of the `parse_nodes` entry loop. -/
def parse_nodes_fuel_loop (fuel : Nat) (result : List Node) :
    List Entry → Option (List Node)
  | [] => some result
  | .message msg :: rest =>
      match visit_message_fuel fuel msg with
      | none => none
      | some node => parse_nodes_fuel_loop fuel (result ++ [node]) rest
  | .term _ :: rest => parse_nodes_fuel_loop fuel result rest
  | .comment _ :: rest => parse_nodes_fuel_loop fuel result rest
  | .groupComment _ :: rest => parse_nodes_fuel_loop fuel result rest
  | .resourceComment _ :: rest => parse_nodes_fuel_loop fuel result rest
  | .junk _ :: rest => parse_nodes_fuel_loop fuel result rest

/-- Fuel-limited version of `parse_nodes`. -/
def parse_nodes_fuel (fuel : Nat) (r : Resource) : Option (List Node) :=
  parse_nodes_fuel_loop fuel [] r.body

/-- Select-nesting depth of an entry (0 for non-messages and patternless
messages). -/
def entryDepth : Entry → Nat
  | .message m =>
      match m.value with
      | some p => patternDepth p
      | none => 0
  | _ => 0

/-- Select-nesting depth of a resource: the maximum entry depth. -/
def resourceDepth (r : Resource) : Nat :=
  r.body.foldr (fun e acc => max (entryDepth e) acc) 0

/-- The pattern of the FTL message `m = {$count -> *[other] {$inner}}`: a
select on `$count` whose only (default) variant's value references `$inner`
— a variable that occurs nowhere else. -/
def selectWithInnerVar : Pattern :=
  .mk [.placeable (.select (.variableReference ⟨"count"⟩)
        [.mk (.identifier ("other"))
          (.mk [.placeable (.inline (.variableReference ⟨"inner"⟩))]) true])]

/-- Scenario B input: the message
`shared-photos = {$userName} {$photoCount -> [one] added a new photo
*[other] added {$photoCount} new photos}` — a select on `$photoCount` whose
default `[other]` variant also references `{$photoCount}`, plus an outer
top-level reference to `{$userName}`. -/
def sharedPhotosMessage : Message :=
  { id := ⟨"shared-photos"⟩
    value := some (.mk
      [ .placeable (.inline (.variableReference ⟨"userName"⟩))
      , .textElement (" ")
      , .placeable (.select (.variableReference ⟨"photoCount"⟩)
          [ .mk (.identifier ("one"))
              (.mk [.textElement ("added a new photo")]) false
          , .mk (.identifier ("other"))
              (.mk [ .textElement ("added ")
                   , .placeable (.inline (.variableReference ⟨"photoCount"⟩))
                   , .textElement (" new photos") ]) true ]) ]) }

/-- A resource holding only the Scenario B message. -/
def sharedPhotosResource : Resource :=
  ⟨[.message sharedPhotosMessage]⟩

/-- A one-message resource with one level of select nesting (used to witness
the termination bound). -/
def nestedSelectResource : Resource :=
  ⟨[.message ⟨⟨"m"⟩, some selectWithInnerVar⟩]⟩

theorem mem_insertSet {s : List String} {x y : String} :
    y ∈ insertSet s x ↔ y ∈ s ∨ y = x := by
  unfold insertSet
  by_cases h : x ∈ s
  · rw [if_pos h]
    constructor
    · exact Or.inl
    · rintro (hy | rfl)
      · exact hy
      · exact h
  · rw [if_neg h]
    simp

theorem visit_variants_id (result : List String) :
    ∀ vs : List Variant, visit_variants result vs = result := by
  intro vs
  induction vs with
  | nil => rfl
  | cons v rest ih => cases v with | mk k val d => simpa [visit_variants] using ih

theorem mem_visit_placeable (result : List String) (e : Expression) (y : String) :
    y ∈ visit_placeable result e ↔
      y ∈ result ∨ y ∈ elementTopVars (.placeable e) := by
  cases e with
  | inline ie =>
      cases ie <;> simp [visit_placeable, elementTopVars, mem_insertSet]
  | select sel vs =>
      cases sel <;>
        simp [visit_placeable, elementTopVars, visit_variants_id, mem_insertSet]

theorem mem_visit_elements (els : List PatternElement) :
    ∀ (result : List String) (y : String),
      y ∈ visit_elements result els ↔
        y ∈ result ∨ y ∈ els.flatMap elementTopVars := by
  induction els with
  | nil => intro result y; simp [visit_elements]
  | cons e rest ih =>
      intro result y
      cases e with
      | textElement t => simp [visit_elements, ih, elementTopVars]
      | placeable ex =>
          rw [visit_elements, ih, mem_visit_placeable]
          simp [or_assoc]

theorem parse_nodes_loop_eq (body : List Entry) :
    ∀ acc : List Node, parse_nodes_loop acc body = acc ++ body.filterMap msgNode := by
  induction body with
  | nil => intro acc; simp [parse_nodes_loop]
  | cons e rest ih =>
      intro acc
      cases e <;> simp [parse_nodes_loop, msgNode, ih, List.filterMap_cons]

theorem filterMap_msgNode_length (body : List Entry) :
    (body.filterMap msgNode).length = (body.filter isMessageEntry).length := by
  induction body with
  | nil => rfl
  | cons e rest ih =>
      cases e <;>
        simp [msgNode, isMessageEntry, List.filterMap_cons, List.filter_cons, ih]

theorem stripLead_append (p cs : List Char) : stripLead p (p ++ cs) = some cs := by
  induction p with
  | nil => simp [stripLead]
  | cons c rest ih => simp [stripLead, ih]

theorem decodeLocaleEntry_roundTrip (locale ftl : String) :
    decodeLocaleEntry locale (localeEntry locale ftl) = some ftl := by
  unfold decodeLocaleEntry localeEntry
  have hdata : ("'" ++ locale ++ "': `" ++ ftl ++ "`").data
      = ("'" ++ locale ++ "': `").data ++ (ftl.data ++ ['`']) := by
    simp [String.data_append]
  rw [hdata, stripLead_append]
  have h1 : (ftl.data ++ ['`']).getLast? = some '`' := by
    simp [List.getLast?_append]
  simp [h1, List.dropLast_concat]

mutual

theorem visit_pattern_fuel_eq :
    ∀ (fuel : Nat) (p : Pattern), patternDepth p ≤ fuel →
      visit_pattern_fuel fuel p = some (visit_pattern p)
  | fuel, .mk els, h => by
      rw [visit_pattern_fuel, visit_pattern]
      exact visit_elements_fuel_eq fuel [] els h

theorem visit_elements_fuel_eq :
    ∀ (fuel : Nat) (result : List String) (els : List PatternElement),
      elementsDepth els ≤ fuel →
      visit_elements_fuel fuel result els = some (visit_elements result els)
  | _, result, [], _ => rfl
  | fuel, result, .textElement t :: rest, h => by
      rw [visit_elements_fuel, visit_elements]
      exact visit_elements_fuel_eq fuel result rest
        (le_trans (le_max_right _ _) h)
  | fuel, result, .placeable ex :: rest, h => by
      have h1 : exprDepth ex ≤ fuel := le_trans (le_max_left _ _) h
      have h2 : elementsDepth rest ≤ fuel := le_trans (le_max_right _ _) h
      rw [visit_elements_fuel, visit_elements,
        visit_placeable_fuel_eq fuel result ex h1]
      exact visit_elements_fuel_eq fuel (visit_placeable result ex) rest h2

theorem visit_placeable_fuel_eq :
    ∀ (fuel : Nat) (result : List String) (e : Expression), exprDepth e ≤ fuel →
      visit_placeable_fuel fuel result e = some (visit_placeable result e)
  | fuel, result, .inline ie, _ => by
      cases ie <;> rfl
  | fuel, result, .select sel vs, h => by
      cases sel with
      | variableReference id =>
          rw [visit_placeable_fuel, visit_placeable]
          exact visit_variants_fuel_eq fuel (insertSet result id.name) vs h
      | stringLiteral v => rfl
      | numberLiteral v => rfl
      | functionReference i => rfl
      | messageReference i => rfl
      | termReference i => rfl
      | placeable e => rfl

theorem visit_variants_fuel_eq :
    ∀ (fuel : Nat) (result : List String) (vs : List Variant),
      variantsDepth vs ≤ fuel →
      visit_variants_fuel fuel result vs = some (visit_variants result vs)
  | _, result, [], _ => rfl
  | fuel, result, .mk k value d :: rest, h => by
      have h1 : 1 + patternDepth value ≤ fuel := le_trans (le_max_left _ _) h
      have h2 : variantsDepth rest ≤ fuel := le_trans (le_max_right _ _) h
      cases fuel with
      | zero => omega
      | succ f =>
        rw [visit_variants_fuel, visit_variants]
        rw [visit_pattern_fuel_eq f value (by omega)]
        exact visit_variants_fuel_eq (f + 1) result rest h2

end

theorem visit_message_fuel_eq (fuel : Nat) (msg : Message)
    (h : entryDepth (.message msg) ≤ fuel) :
    visit_message_fuel fuel msg = some (visit_message msg) := by
  unfold visit_message_fuel visit_message
  cases hv : msg.value with
  | none => rfl
  | some p =>
      simp only [entryDepth, hv] at h
      simp [visit_pattern_fuel_eq fuel p h]

theorem entryDepth_le_foldr (body : List Entry) :
    ∀ e ∈ body, entryDepth e ≤ body.foldr (fun e acc => max (entryDepth e) acc) 0 := by
  induction body with
  | nil => simp
  | cons x rest ih =>
      intro e he
      rcases List.mem_cons.mp he with rfl | hmem
      · exact le_max_left _ _
      · exact le_trans (ih e hmem) (le_max_right _ _)

theorem parse_nodes_fuel_loop_eq (fuel : Nat) :
    ∀ (body : List Entry), (∀ e ∈ body, entryDepth e ≤ fuel) →
      ∀ acc : List Node,
        parse_nodes_fuel_loop fuel acc body = some (parse_nodes_loop acc body)
  | [], _, acc => rfl
  | .message msg :: rest, h, acc => by
      rw [parse_nodes_fuel_loop, parse_nodes_loop,
        visit_message_fuel_eq fuel msg (h _ (List.mem_cons_self _ _))]
      exact parse_nodes_fuel_loop_eq fuel rest
        (fun x hx => h x (List.mem_cons_of_mem _ hx)) (acc ++ [visit_message msg])
  | .term i :: rest, h, acc => by
      rw [parse_nodes_fuel_loop, parse_nodes_loop]
      exact parse_nodes_fuel_loop_eq fuel rest
        (fun x hx => h x (List.mem_cons_of_mem _ hx)) acc
  | .comment c :: rest, h, acc => by
      rw [parse_nodes_fuel_loop, parse_nodes_loop]
      exact parse_nodes_fuel_loop_eq fuel rest
        (fun x hx => h x (List.mem_cons_of_mem _ hx)) acc
  | .groupComment c :: rest, h, acc => by
      rw [parse_nodes_fuel_loop, parse_nodes_loop]
      exact parse_nodes_fuel_loop_eq fuel rest
        (fun x hx => h x (List.mem_cons_of_mem _ hx)) acc
  | .resourceComment c :: rest, h, acc => by
      rw [parse_nodes_fuel_loop, parse_nodes_loop]
      exact parse_nodes_fuel_loop_eq fuel rest
        (fun x hx => h x (List.mem_cons_of_mem _ hx)) acc
  | .junk c :: rest, h, acc => by
      rw [parse_nodes_fuel_loop, parse_nodes_loop]
      exact parse_nodes_fuel_loop_eq fuel rest
        (fun x hx => h x (List.mem_cons_of_mem _ hx)) acc

theorem genNodeEntry_nil (node : Node) (h : node.ids = []) :
    genNodeEntry node = "'" ++ node.name ++ "': []," := by
  unfold genNodeEntry
  rw [h]
  rw [if_neg (by simp)]
  rw [String.append_empty, String.append_assoc]
  congr 1

theorem genNodeEntry_nonnil (node : Node) (h : node.ids ≠ []) :
    genNodeEntry node
      = "'" ++ node.name ++ "': [Vars<'"
          ++ String.intercalate ("' | '") node.ids ++ "'>]," := by
  unfold genNodeEntry
  rw [if_pos (by simpa using List.length_pos.mpr h)]
  apply String.ext
  simp only [String.data_append, List.append_assoc]
  congr 1

/-- C1: the spec claims that variables occurring only inside variant
sub-patterns of a `Select` are unioned into the message-level set.  The code
does not do this: at lib.rs:166, `result.union(&visit_pattern(&variant.value));`
calls `HashSet::union`, which borrows the set, returns a lazy union iterator
and never mutates the receiver; the iterator is dropped on the spot, so the
loop discards every variant's variables.  On the message
`m = {$count -> *[other] {$inner}}` the extractor returns exactly `{count}`
and drops `inner`, where the claim requires `{count, inner}`.  The recursion
is clearly intended to contribute (there is no other reason to compute it;
`HashSet::union` is `#[must_use]`), and the repository's own tests only use
variant-level variables that already occur as selectors, which is why they
still pass — a code bug relative to the documented behaviour. -/
theorem select_variant_variables_dropped :
    visit_pattern selectWithInnerVar = ["count"] ∧
    ("inner") ∉ visit_pattern selectWithInnerVar := by
  constructor
  · rfl
  · decide

/-- C2: `visit_pattern` returns exactly the names of the pattern's top-level
inline `VariableReference` placeables together with the selectors of
top-level `Select` expressions that are `VariableReference`s
(`specTopLevelVars`): a name referenced only inside a variant's value
sub-pattern is never included, and a `Select` whose selector is not a
`VariableReference` contributes no names at all (its selector and all its
variants are dropped). -/
theorem visit_pattern_top_level_characterization (p : Pattern) (y : String) :
    y ∈ visit_pattern p ↔ y ∈ specTopLevelVars p := by
  cases p with
  | mk els =>
      rw [visit_pattern, mem_visit_elements]
      simp [specTopLevelVars, Pattern.elements]

/-- C3: on the Scenario B input — one message with an outer `{$userName}`
reference plus a select on `$photoCount` whose `[one]` and default
`*[other]` branches exist and whose `[other]` branch also references
`{$photoCount}` — extraction yields exactly one record whose variable set is
`{userName, photoCount}`. -/
theorem extraction_scenario_b :
    parse_nodes sharedPhotosResource
      = [{ name := "shared-photos", comment := none,
           ids := ["userName", "photoCount"] }] ∧
    ∀ x : String, x ∈ (visit_message sharedPhotosMessage).ids ↔
      (x = "userName" ∨ x = "photoCount") := by
  constructor
  · rfl
  · intro x
    have h : (visit_message sharedPhotosMessage).ids
        = ["userName", "photoCount"] := rfl
    rw [h]
    simp

/-- C4: extraction iterates the resource's entries in declaration order and
produces exactly one record per `Message` entry (`msgNode` is `some` exactly
on messages); `Term`, `Comment` and `Junk` entries yield no record and no
error, so a resource with only non-message entries yields `[]`, and its
rendered schema declares no message keys. -/
theorem parse_nodes_one_record_per_message (r : Resource) :
    parse_nodes r = r.body.filterMap msgNode ∧
    (parse_nodes r).length = (r.body.filter isMessageEntry).length ∧
    ((∀ e ∈ r.body, msgNode e = none) →
      parse_nodes r = [] ∧
      generate_types_body r
        = "\nexport type LocalizedMessage = \x7b\n  \n\x7d\n\ntype Vars<T extends string> = Record<T, string | number>\n        ") := by
  have h1 : parse_nodes r = r.body.filterMap msgNode := by
    unfold parse_nodes
    simpa using parse_nodes_loop_eq r.body []
  refine ⟨h1, ?_, ?_⟩
  · rw [h1]
    exact filterMap_msgNode_length r.body
  · intro hall
    have hnil : parse_nodes r = [] := by
      rw [h1]
      exact List.filterMap_eq_nil_iff.mpr hall
    refine ⟨hnil, ?_⟩
    unfold generate_types_body
    rw [hnil]
    rfl

/-- Witness for C4: a comment-only resource extracts to `[]` and renders the
schema with no keys. -/
theorem parse_nodes_one_record_per_message_witness :
    parse_nodes ⟨[Entry.comment ("just a comment")]⟩ = [] ∧
    generate_types_body ⟨[Entry.comment ("just a comment")]⟩
      = "\nexport type LocalizedMessage = \x7b\n  \n\x7d\n\ntype Vars<T extends string> = Record<T, string | number>\n        " :=
  (parse_nodes_one_record_per_message ⟨[Entry.comment ("just a comment")]⟩).2.2
    (by
      intro e he
      rw [List.mem_singleton] at he
      subst he
      rfl)

/-- C5: when the bundle's declared main locale key is not present in its
locale map, `run` aborts at `expect("Main FTL does not exist!")` before
`fs::write` is ever reached: no output document is produced. -/
theorem run_missing_main_no_output (parse : String → Option Resource)
    (bundle : Bundle) (h : lookupLang bundle.langs bundle.main = none) :
    run parse bundle = none := by
  unfold run
  rw [h]

/-- Witness for C5: a bundle whose `main` is `en` but whose map only holds
`de`. -/
theorem run_missing_main_no_output_witness :
    run (fun _ => none) ⟨"en", [(("de"), ("x"))]⟩ = none :=
  run_missing_main_no_output (fun _ => none) ⟨"en", [(("de"), ("x"))]⟩ (by rfl)

/-- C6: only the main locale is ever parsed.  If the main locale's raw text
fails to parse, `run` aborts (inside `generate_types`) with no output; and
`run`'s result depends on the parser only through its value on the main
locale's raw text, so a structurally broken non-main locale can never cause
a parse failure and its raw text passes through to the output table. -/
theorem run_parses_only_main_locale (p q : String → Option Resource)
    (bundle : Bundle) (mainFtl : String)
    (hmain : lookupLang bundle.langs bundle.main = some mainFtl) :
    (p mainFtl = none → run p bundle = none) ∧
    (p mainFtl = q mainFtl → run p bundle = run q bundle) := by
  constructor
  · intro hp
    simp [run, generate_types, hmain, hp]
  · intro hpq
    simp [run, generate_types, hmain, hpq]

/-- Witness for C6: a one-locale bundle whose main text fails to parse under
`p`, and a parser `q` that differs from `p` only away from the main text. -/
theorem run_parses_only_main_locale_witness :
    run (fun _ => none) ⟨"en", [(("en"), ("x"))]⟩ = none ∧
    run (fun _ => none) ⟨"en", [(("en"), ("x"))]⟩
      = run (fun s => if s = "x" then none else some ⟨[]⟩)
          ⟨"en", [(("en"), ("x"))]⟩ := by
  have h := run_parses_only_main_locale (fun _ => none)
    (fun s => if s = "x" then none else some ⟨[]⟩)
    ⟨"en", [(("en"), ("x"))]⟩ ("x") (by rfl)
  exact ⟨h.1 rfl, h.2 (by simp)⟩

/-- C7: the composed locale table renders exactly one entry per key of the
locale map, in iteration order (entry `i` comes from pair `i`), and each
entry embeds that locale's raw FTL text byte-for-byte: the raw text is
recovered exactly by `decodeLocaleEntry`, with no re-parsing and no
normalization. -/
theorem locale_table_complete_and_raw (langs : List (String × String)) :
    (localeEntries langs).length = langs.length ∧
    (∀ i : Nat, (localeEntries langs)[i]?
      = (langs[i]?).map (fun p => localeEntry p.1 p.2)) ∧
    (∀ locale ftl : String,
      decodeLocaleEntry locale (localeEntry locale ftl) = some ftl) := by
  refine ⟨?_, ?_, ?_⟩
  · simp [localeEntries]
  · intro i
    simp [localeEntries, List.getElem?_map]
  · exact decodeLocaleEntry_roundTrip

/-- C8: every record is rendered as one schema entry whose key is the
message name as a quoted string literal (the entry text starts with a quote
character, so hyphenated identifiers remain valid keys): an empty variable
set renders as `'name': [],` — the message takes no parameters — and a
non-empty one as `'name': [Vars<'v1' | … | 'vn'>],`, while the emitted
module always declares `type Vars<T extends string> = Record<T, string | number>`,
so every variable name maps to a string-or-number value type. -/
theorem schema_entry_shape (node : Node) :
    ((genNodeEntry node).data.take 1 = ['\'']) ∧
    (node.ids = [] → genNodeEntry node = "'" ++ node.name ++ "': [],") ∧
    (node.ids ≠ [] → genNodeEntry node
      = "'" ++ node.name ++ "': [Vars<'"
          ++ String.intercalate ("' | '") node.ids ++ "'>],") ∧
    (∀ r : Resource, ∃ head : String, generate_types_body r
      = head ++ "\n\ntype Vars<T extends string> = Record<T, string | number>\n        ") := by
  refine ⟨?_, genNodeEntry_nil node, genNodeEntry_nonnil node, ?_⟩
  · unfold genNodeEntry
    simp [String.data_append]
  · intro r
    refine ⟨"\nexport type LocalizedMessage = \x7b\n  "
      ++ String.intercalate ("\n  ") ((parse_nodes r).map genNodeEntry)
      ++ "\n\x7d", ?_⟩
    unfold generate_types_body
    apply String.ext
    simp [String.data_append]

/-- Witness for C8: both parameter shapes at concrete records. -/
theorem schema_entry_shape_witness :
    genNodeEntry ⟨("empty-msg"), none, []⟩ = "'" ++ ("empty-msg") ++ "': []," ∧
    genNodeEntry ⟨("hello-user"), none, [("userName")]⟩
      = "'" ++ ("hello-user") ++ "': [Vars<'"
          ++ String.intercalate ("' | '") [("userName")] ++ "'>]," :=
  ⟨(schema_entry_shape ⟨("empty-msg"), none, []⟩).2.1 rfl,
   (schema_entry_shape ⟨("hello-user"), none, [("userName")]⟩).2.2.1 (by decide)⟩

/-- C9: a `Message` entry with no pattern produces a record with an empty
variable set; the record still appears in the extraction output wherever the
message sits in the resource, and is still rendered as a schema entry (one
that declares no parameters). -/
theorem patternless_message_empty_record (msg : Message) (h : msg.value = none)
    (pre post : List Entry) :
    (visit_message msg).ids = [] ∧
    visit_message msg ∈ parse_nodes ⟨pre ++ Entry.message msg :: post⟩ ∧
    genNodeEntry (visit_message msg)
      ∈ (parse_nodes ⟨pre ++ Entry.message msg :: post⟩).map genNodeEntry ∧
    genNodeEntry (visit_message msg) = "'" ++ msg.id.name ++ "': []," := by
  have hids : (visit_message msg).ids = [] := by
    simp [visit_message, h]
  have hmem : visit_message msg ∈ parse_nodes ⟨pre ++ Entry.message msg :: post⟩ := by
    unfold parse_nodes
    rw [parse_nodes_loop_eq]
    simp only [List.nil_append]
    refine List.mem_filterMap.mpr ⟨Entry.message msg, ?_, rfl⟩
    exact List.mem_append_right _ (List.mem_cons_self _ _)
  refine ⟨hids, hmem, List.mem_map_of_mem _ hmem, ?_⟩
  have := genNodeEntry_nil (visit_message msg) hids
  rwa [show (visit_message msg).name = msg.id.name from rfl] at this

/-- Witness for C9: a lone patternless message `welcome`. -/
theorem patternless_message_empty_record_witness :
    (visit_message ⟨⟨"welcome"⟩, none⟩).ids = [] ∧
    visit_message ⟨⟨"welcome"⟩, none⟩
      ∈ parse_nodes ⟨[] ++ Entry.message ⟨⟨"welcome"⟩, none⟩ :: []⟩ ∧
    genNodeEntry (visit_message ⟨⟨"welcome"⟩, none⟩)
      ∈ (parse_nodes ⟨[] ++ Entry.message ⟨⟨"welcome"⟩, none⟩ :: []⟩).map genNodeEntry ∧
    genNodeEntry (visit_message ⟨⟨"welcome"⟩, none⟩)
      = "'" ++ (Identifier.mk ("welcome")).name ++ "': []," :=
  patternless_message_empty_record ⟨⟨"welcome"⟩, none⟩ rfl [] []

/-- C10: the extraction traversal (`parse_nodes` with the recursive
`visit_pattern`) is total and terminating on every syntactically valid tree:
whenever the fuel is at least the resource's select-nesting depth (a finite
number bounded by the input), the fuel-limited traversal never exhausts its
fuel and returns exactly `parse_nodes`' result wrapped in `some` — it never
fails, and a message with no variables is an ordinary result, not an
error. -/
theorem extraction_terminates (r : Resource) (fuel : Nat)
    (h : resourceDepth r ≤ fuel) :
    parse_nodes_fuel fuel r = some (parse_nodes r) := by
  unfold parse_nodes_fuel parse_nodes
  exact parse_nodes_fuel_loop_eq fuel r.body
    (fun e he => le_trans (entryDepth_le_foldr r.body e he) h) []

/-- Witness for C10: one unit of fuel suffices for a resource with one level
of select nesting. -/
theorem extraction_terminates_witness :
    resourceDepth nestedSelectResource ≤ 1 ∧
    parse_nodes_fuel 1 nestedSelectResource
      = some (parse_nodes nestedSelectResource) :=
  ⟨by decide, extraction_terminates nestedSelectResource 1 (by decide)⟩
